import Mathlib

/-!
Verification of the JNI boundary-marshalling layer in
`src/app/src/main/cpp/native-lib.cpp` (repository `xeron56/webrtc-app`).

The native library exposes five entry points:
  * `calculateSum`        : jint × jint → jint          (`a + b`)
  * `calculateDifference` : jint × jint → jint          (`a - b`)
  * `CalculateArrySum`    : jintArray → jint            (linear fold of the elements)
  * `ReversesString`      : jstring → jstring           (byte-order reversal of the UTF chars)
  * `swapPersonAttributes`: Person object → Person obj. (new object `{to_string(age), name.length()}`)

Shallow embedding: `jint` is modelled as a mathematical integer normalised
into the twos-complement window `[-2^31, 2^31)` by `wrap32`; Java strings
are Lean `String`s whose marshalled native form is their UTF-8 byte list;
the managed heap visible to `swapPersonAttributes` is a list of `Person`
records addressed by index (JNI object references).
-/

/-- Twos-complement normalisation of a mathematical integer into the
`jint` window `[-2^31, 2^31)`; this is the fixed-width wraparound
semantics the spec assigns to `jint` addition and subtraction. -/
def wrap32 (x : Int) : Int := (x + 2 ^ 31) % 2 ^ 32 - 2 ^ 31

/-- Embeds `Java_com_safeai_webrtcapp_MainActivity_calculateSum`: `return a + b;`
on `jint` operands, wrapping on overflow. -/
def calculateSum (a b : Int) : Int := wrap32 (a + b)

/-- Embeds `Java_com_safeai_webrtcapp_MainActivity_calculateDifference`:
`return a - b;` on `jint` operands, wrapping on overflow. -/
def calculateDifference (a b : Int) : Int := wrap32 (a - b)

/-- JNI release modes for `ReleaseIntArrayElements`: `0`/`JNI_COMMIT`
copy the native buffer back into the array of the caller, `JNI_ABORT`
discards the buffer without writing back. -/
inductive ReleaseMode where
  | commit : ReleaseMode
  | abort : ReleaseMode
deriving DecidableEq

/-- JNI `ReleaseIntArrayElements`: the caller-visible array after the
release is the native buffer if the mode commits, and the untouched
original array if the mode is `JNI_ABORT`. -/
def releaseIntArrayElements (arr elements : List Int) : ReleaseMode → List Int
  | ReleaseMode.commit => elements
  | ReleaseMode.abort => arr

/-- The accumulation loop of `CalculateArrySum`:
`for (i = 0; i < length; i++) sum = sum + elements[i];` with a `jint`
accumulator, so every partial sum wraps. -/
def sumLoop (elements : List Int) (sum : Int) : Int :=
  elements.foldl (fun s x => wrap32 (s + x)) sum

/-- Embeds `Java_com_safeai_webrtcapp_MainActivity_CalculateArrySum` with the
caller-owned array made explicit: `GetIntArrayElements` yields a native view
of the elements, the loop folds them into a zero-initialised `jint`
accumulator, and `ReleaseIntArrayElements(..., JNI_ABORT)` discards the
view. Returns the `jint` result together with the caller-visible array
after the call. -/
def CalculateArrySumFull (arr : List Int) : Int × List Int :=
  let elements := arr
  let sum := sumLoop elements 0
  let arrAfter := releaseIntArrayElements arr elements ReleaseMode.abort
  (sum, arrAfter)

/-- The value returned by `CalculateArrySum`. -/
def CalculateArrySum (arr : List Int) : Int := (CalculateArrySumFull arr).1

/-- UTF-8 encoding of a single character, as produced by the JNI string
marshalling (`GetStringUTFChars`) that hands the native side the bytes
of a Java string. -/
def utf8EncodeChar (c : Char) : List Nat :=
  if c.toNat < 128 then [c.toNat]
  else if c.toNat < 2048 then
    [192 + c.toNat / 64, 128 + c.toNat % 64]
  else if c.toNat < 65536 then
    [224 + c.toNat / 4096, 128 + c.toNat / 64 % 64, 128 + c.toNat % 64]
  else
    [240 + c.toNat / 262144, 128 + c.toNat / 4096 % 64,
      128 + c.toNat / 64 % 64, 128 + c.toNat % 64]

/-- Concatenated UTF-8 bytes of a character sequence. -/
def bytesOfChars : List Char → List Nat
  | [] => []
  | c :: cs => utf8EncodeChar c ++ bytesOfChars cs

/-- The marshalled native form of a Java string: the byte contents of
the `std::string` built from `GetStringUTFChars`. -/
def stringToBytes (s : String) : List Nat := bytesOfChars s.data

/-- Byte length `name.length()` of the marshalled `std::string`: the number of bytes
in the UTF form of the string. -/
def utf8Len (s : String) : Nat := (stringToBytes s).length

/-- Embeds `Java_com_safeai_webrtcapp_MainActivity_ReversesString`: the input
string is decoded to a native `std::string`, `std::reverse` reverses its
bytes in place, and `NewStringUTF` returns a string built from the
reversed byte buffer. The result is the byte content of that buffer. -/
def ReversesString (s : String) : List Nat := (stringToBytes s).reverse

/-- The `Person` record: mirrors both the Java class
(`name: String, age: int`) and the native `struct Person`. -/
structure Person where
  name : String
  age : Int
deriving DecidableEq

/-- Decimal rendering `std::to_string` on a `jint`: the decimal representation, with a
leading minus sign for negative values. -/
def decimalString (a : Int) : String := toString a

/-- The pure record transform at the heart of
`Java_com_safeai_webrtcapp_MainActivity_swapPersonAttributes`:
`Person swappedPerson = {std::to_string(age), static_cast<int>(name.length())};`
where `name` is the native `std::string` marshalled from the Java
string, so `name.length()` counts its UTF bytes, truncated back to
`jint` by the `static_cast<int>`. -/
def swapPersonAttributes (p : Person) : Person :=
  { name := decimalString p.age, age := wrap32 (utf8Len p.name : Int) }

/-- The managed heap visible across the JNI boundary: a list of `Person`
objects addressed by index (the index plays the role of a `jobject`
reference). -/
structure Heap where
  objs : List Person
deriving DecidableEq

/-- JNI `NewObject` for the `Person` class: allocates a fresh object at
the end of the heap and returns the new heap and a reference to the
fresh object. -/
def newObject (h : Heap) (p : Person) : Heap × Nat :=
  (Heap.mk (h.objs ++ [p]), h.objs.length)

/-- Embeds `Java_com_safeai_webrtcapp_MainActivity_swapPersonAttributes` with
the managed heap explicit: reads the `name` and `age` fields of the
referenced object (failing if the reference is dangling), computes the
swapped record, and hands it to `NewObject`, returning the new heap and
the reference to the newly constructed object. -/
def swapPersonAttributesJNI (h : Heap) (r : Nat) : Option (Heap × Nat) :=
  match h.objs[r]? with
  | none => none
  | some p => some (newObject h (swapPersonAttributes p))

/-- Entry point `calculateSum` with the managed heap made explicit: the entry point
neither reads nor writes any heap state. -/
def calculateSumCall (w : Heap) (a b : Int) : Int × Heap := (calculateSum a b, w)

/-- Entry point `calculateDifference` with the managed heap made explicit. -/
def calculateDifferenceCall (w : Heap) (a b : Int) : Int × Heap :=
  (calculateDifference a b, w)

/-- Entry point `CalculateArrySum` with the managed heap made explicit. -/
def CalculateArrySumCall (w : Heap) (arr : List Int) : Int × Heap :=
  (CalculateArrySum arr, w)

/-- Entry point `ReversesString` with the managed heap made explicit. -/
def ReversesStringCall (w : Heap) (s : String) : List Nat × Heap :=
  (ReversesString s, w)

theorem wrap32_eq_self {x : Int} (h1 : -2 ^ 31 ≤ x) (h2 : x < 2 ^ 31) :
    wrap32 x = x := by
  unfold wrap32
  omega

theorem wrap32_emod (x : Int) : wrap32 x % 2 ^ 32 = x % 2 ^ 32 := by
  unfold wrap32
  omega

theorem wrap32_lb (x : Int) : -2 ^ 31 ≤ wrap32 x := by
  unfold wrap32
  omega

theorem wrap32_ub (x : Int) : wrap32 x < 2 ^ 31 := by
  unfold wrap32
  omega

theorem wrap32_add_left (a b : Int) : wrap32 (wrap32 a + b) = wrap32 (a + b) := by
  unfold wrap32
  omega

theorem wrap32_add_wrap32 (a b : Int) :
    wrap32 (wrap32 a + wrap32 b) = wrap32 (a + b) := by
  unfold wrap32
  omega

theorem sumLoop_wrap32 (xs : List Int) : ∀ c : Int,
    sumLoop xs (wrap32 c) = wrap32 (c + xs.sum) := by
  induction xs with
  | nil => intro c; simp [sumLoop]
  | cons x xs ih =>
    intro c
    simp only [sumLoop, List.foldl_cons] at ih ⊢
    rw [wrap32_add_left, ih (c + x), List.sum_cons]
    ring_nf

theorem CalculateArrySum_eq_wrap32_sum (xs : List Int) :
    CalculateArrySum xs = wrap32 xs.sum := by
  have h0 : (0 : Int) = wrap32 0 := by decide
  unfold CalculateArrySum CalculateArrySumFull
  simp only
  rw [h0, sumLoop_wrap32 xs 0, Int.zero_add]

theorem one_le_length_utf8EncodeChar (c : Char) :
    1 ≤ (utf8EncodeChar c).length := by
  unfold utf8EncodeChar
  split_ifs <;> simp

theorem two_le_length_utf8EncodeChar (c : Char) (h : 128 ≤ c.toNat) :
    2 ≤ (utf8EncodeChar c).length := by
  unfold utf8EncodeChar
  split_ifs with h1 h2 h3 <;> first | omega | simp

theorem length_le_length_bytesOfChars (cs : List Char) :
    cs.length ≤ (bytesOfChars cs).length := by
  induction cs with
  | nil => simp [bytesOfChars]
  | cons c cs ih =>
    simp only [bytesOfChars, List.length_cons, List.length_append]
    have := one_le_length_utf8EncodeChar c
    omega

theorem length_lt_length_bytesOfChars (cs : List Char) (c : Char)
    (hc : c ∈ cs) (hmb : 128 ≤ c.toNat) :
    cs.length < (bytesOfChars cs).length := by
  induction cs with
  | nil => cases hc
  | cons d cs ih =>
    simp only [bytesOfChars, List.length_cons, List.length_append]
    rcases List.mem_cons.mp hc with heq | htail
    · subst heq
      have h2 := two_le_length_utf8EncodeChar c hmb
      have h3 := length_le_length_bytesOfChars cs
      omega
    · have h1 := one_le_length_utf8EncodeChar d
      have h4 := ih htail
      omega

theorem getElem?_append_singleton_length {α : Type} (l : List α) (q : α) :
    (l ++ [q])[l.length]? = some q := by
  induction l with
  | nil => rfl
  | cons x xs ih => simp [ih]

theorem getElem?_append_singleton_lt {α : Type} (l : List α) (q : α) (i : Nat)
    (h : i < l.length) : (l ++ [q])[i]? = l[i]? := by
  induction l generalizing i with
  | nil => cases h
  | cons x xs ih =>
    cases i with
    | zero => simp
    | succ j =>
      simp only [List.cons_append, List.getElem?_cons_succ]
      exact ih j (by simp at h; omega)

theorem lt_length_of_getElem?_eq_some {α : Type} {l : List α} {i : Nat} {q : α}
    (h : l[i]? = some q) : i < l.length := by
  by_contra hge
  rw [List.getElem?_eq_none (by omega)] at h
  cases h

/-- C3: for all `jint` values `a` and `b`, `calculateSum` returns `a + b`
modulo `2^32` and `calculateDifference` returns `a - b` modulo `2^32`;
both results land in the `jint` window (silent wraparound, no error
path), and in particular the sum of `2^31 - 1` and `1` silently wraps to
`-2^31`. -/
theorem calculateSum_calculateDifference_mod_correct (a b : Int) :
    calculateSum a b % 2 ^ 32 = (a + b) % 2 ^ 32 ∧
    calculateDifference a b % 2 ^ 32 = (a - b) % 2 ^ 32 ∧
    (-2 ^ 31 ≤ calculateSum a b ∧ calculateSum a b < 2 ^ 31) ∧
    (-2 ^ 31 ≤ calculateDifference a b ∧ calculateDifference a b < 2 ^ 31) ∧
    calculateSum (2 ^ 31 - 1) 1 = -2 ^ 31 := by
  unfold calculateSum calculateDifference wrap32
  refine ⟨by omega, by omega, ⟨by omega, by omega⟩, ⟨by omega, by omega⟩, by decide⟩

/-- C9: on the `jint` window, `calculateDifference` is the right inverse
of `calculateSum` in the second argument and vice versa: for every `a`
in `[-2^31, 2^31)` and every integer `b`,
`calculateDifference (calculateSum a b) b = a` and
`calculateSum (calculateDifference a b) b = a`. -/
theorem calculateSum_calculateDifference_inverse (a b : Int)
    (h1 : -2 ^ 31 ≤ a) (h2 : a < 2 ^ 31) :
    calculateDifference (calculateSum a b) b = a ∧
    calculateSum (calculateDifference a b) b = a := by
  unfold calculateSum calculateDifference wrap32
  omega

/-- Witness for C9 at `a = 2147483647`, `b = 5`. -/
theorem calculateSum_calculateDifference_inverse_witness :
    calculateDifference (calculateSum 2147483647 5) 5 = 2147483647 ∧
    calculateSum (calculateDifference 2147483647 5) 5 = 2147483647 :=
  calculateSum_calculateDifference_inverse 2147483647 5 (by decide) (by decide)

/-- C4: `CalculateArrySum` of the empty sequence is `0`, and on every
finite integer sequence it returns the sum of all elements under
fixed-width wraparound arithmetic from a zero accumulator: the result is
the twos-complement normalisation of `Σ S`, hence agrees with `Σ S`
modulo `2^32`; concretely, `CalculateArrySum [1,2,3,4] = 10`. -/
theorem CalculateArrySum_correct (S : List Int) :
    CalculateArrySum ([] : List Int) = 0 ∧
    CalculateArrySum S = wrap32 S.sum ∧
    CalculateArrySum S % 2 ^ 32 = S.sum % 2 ^ 32 ∧
    CalculateArrySum [1, 2, 3, 4] = 10 := by
  refine ⟨by decide, CalculateArrySum_eq_wrap32_sum S, ?_, by decide⟩
  rw [CalculateArrySum_eq_wrap32_sum S, wrap32_emod]

/-- C5: `CalculateArrySum` leaves the caller-owned array unchanged: the
caller-visible array after the call is exactly the input array; the
`JNI_ABORT` release discards the transient native view (even a mutated
one) without writing back, and since the loop never writes the view, the
caller-owned array would survive any release mode. -/
theorem CalculateArrySum_frame (arr elements : List Int) (mode : ReleaseMode) :
    (CalculateArrySumFull arr).2 = arr ∧
    releaseIntArrayElements arr elements ReleaseMode.abort = arr ∧
    releaseIntArrayElements arr arr mode = arr := by
  refine ⟨rfl, rfl, ?_⟩
  cases mode <;> rfl

/-- C2: `ReversesString` preserves the length of the marshalled string,
returns a permutation of it (the exact byte reversal), reversing the
output once more recovers the bytes of the original string (so applying the
operation twice is the identity on string contents), and concretely the
reversal of `"hello"` is the string `"olleh"`. -/
theorem ReversesString_correct (s : String) :
    (ReversesString s).length = utf8Len s ∧
    List.Perm (ReversesString s) (stringToBytes s) ∧
    (ReversesString s).reverse = stringToBytes s ∧
    ReversesString "hello" = stringToBytes "olleh" := by
  refine ⟨?_, ?_, ?_, by decide⟩
  · exact List.length_reverse _
  · exact List.reverse_perm _
  · exact List.reverse_reverse _

/-- C10: `CalculateArrySum` is a monoid homomorphism from sequence
concatenation to wraparound addition: summing a concatenation `S ++ T`
agrees with `calculateSum` applied to the two partial array sums, and
the empty sequence maps to the additive identity `0`. -/
theorem CalculateArrySum_append_hom (S T : List Int) :
    CalculateArrySum (S ++ T) = calculateSum (CalculateArrySum S) (CalculateArrySum T) ∧
    CalculateArrySum ([] : List Int) = 0 := by
  refine ⟨?_, by decide⟩
  rw [CalculateArrySum_eq_wrap32_sum, CalculateArrySum_eq_wrap32_sum,
    CalculateArrySum_eq_wrap32_sum, List.sum_append]
  unfold calculateSum
  rw [wrap32_add_wrap32]

/-- C1: for every `Person` record whose marshalled name fits in a
`jint`, the swapped record has as `name` the decimal string of the input
`age` and as `age` the length of the marshalled input `name`;
concretely, swapping `{name := "Alice", age := 30}` yields
`{name := "30", age := 5}`. -/
theorem swapPersonAttributes_correct (p : Person)
    (hlen : utf8Len p.name < 2 ^ 31) :
    (swapPersonAttributes p).name = decimalString p.age ∧
    (swapPersonAttributes p).age = (utf8Len p.name : Int) ∧
    swapPersonAttributes (Person.mk "Alice" 30) = Person.mk "30" 5 := by
  refine ⟨rfl, ?_, by decide⟩
  show wrap32 (utf8Len p.name : Int) = (utf8Len p.name : Int)
  apply wrap32_eq_self <;> omega

/-- Witness for C1 at the record `{name := "Alice", age := 30}`. -/
theorem swapPersonAttributes_correct_witness :
    (swapPersonAttributes (Person.mk "Alice" 30)).name = decimalString 30 ∧
    (swapPersonAttributes (Person.mk "Alice" 30)).age = (utf8Len "Alice" : Int) ∧
    swapPersonAttributes (Person.mk "Alice" 30) = Person.mk "30" 5 :=
  swapPersonAttributes_correct (Person.mk "Alice" 30) (by decide)

/-- C6: `swapPersonAttributes` does not mutate the input object: the
record stored at the input reference is unchanged by the call, the
returned reference is a newly allocated one distinct from the input
reference, and it holds the newly constructed swapped record. -/
theorem swapPersonAttributesJNI_frame (h h2 : Heap) (r r2 : Nat)
    (hcall : swapPersonAttributesJNI h r = some (h2, r2)) :
    h2.objs[r]? = h.objs[r]? ∧
    r2 ≠ r ∧
    h2.objs[r2]? = (h.objs[r]?).map swapPersonAttributes := by
  unfold swapPersonAttributesJNI at hcall
  cases hget : h.objs[r]? with
  | none => rw [hget] at hcall; cases hcall
  | some p =>
    simp only [hget, newObject] at hcall
    injection hcall with hpair
    injection hpair with hh hr
    have hlt : r < h.objs.length := lt_length_of_getElem?_eq_some hget
    subst hh
    subst hr
    refine ⟨?_, by omega, ?_⟩
    · show (h.objs ++ [swapPersonAttributes p])[r]? = some p
      rw [getElem?_append_singleton_lt h.objs _ r hlt]
      exact hget
    · show (h.objs ++ [swapPersonAttributes p])[h.objs.length]? =
        Option.map swapPersonAttributes (some p)
      rw [getElem?_append_singleton_length h.objs _]
      rfl

/-- Witness for C6: swapping the only object of a one-object heap. -/
theorem swapPersonAttributesJNI_frame_witness :
    (Heap.mk [Person.mk "Alice" 30, Person.mk "30" 5]).objs[0]? =
      (Heap.mk [Person.mk "Alice" 30]).objs[0]? ∧
    1 ≠ 0 ∧
    (Heap.mk [Person.mk "Alice" 30, Person.mk "30" 5]).objs[1]? =
      ((Heap.mk [Person.mk "Alice" 30]).objs[0]?).map swapPersonAttributes :=
  swapPersonAttributesJNI_frame (Heap.mk [Person.mk "Alice" 30])
    (Heap.mk [Person.mk "Alice" 30, Person.mk "30" 5]) 0 1 (by decide)

/-- C8: the `age` of the swapped record counts the UTF-8 bytes of the
input `name`, not its Unicode characters: it equals the marshalled
byte length, and as soon as the name contains a multi-byte character
(code point at least `U+0080`) it strictly exceeds the character
count. -/
theorem swapPersonAttributes_age_counts_bytes (p : Person) (c : Char)
    (hlen : utf8Len p.name < 2 ^ 31) (hc : c ∈ p.name.data)
    (hmb : 128 ≤ c.toNat) :
    (swapPersonAttributes p).age = (utf8Len p.name : Int) ∧
    (p.name.data.length : Int) < (swapPersonAttributes p).age := by
  have hbytes : p.name.data.length < utf8Len p.name :=
    length_lt_length_bytesOfChars p.name.data c hc hmb
  have hwrap : wrap32 (utf8Len p.name : Int) = (utf8Len p.name : Int) := by
    apply wrap32_eq_self <;> omega
  constructor
  · show wrap32 (utf8Len p.name : Int) = (utf8Len p.name : Int)
    exact hwrap
  · show (p.name.data.length : Int) < wrap32 (utf8Len p.name : Int)
    rw [hwrap]
    exact_mod_cast hbytes

/-- Witness for C8 at the record `{name := "é", age := 0}`: the name is
one character but two UTF-8 bytes. -/
theorem swapPersonAttributes_age_counts_bytes_witness :
    (swapPersonAttributes (Person.mk "é" 0)).age = (utf8Len "é" : Int) ∧
    ((String.data "é").length : Int) < (swapPersonAttributes (Person.mk "é" 0)).age :=
  swapPersonAttributes_age_counts_bytes (Person.mk "é" 0) 'é'
    (by decide) (by decide) (by decide)

/-- C7: every entry point is deterministic and free of hidden state:
with the managed heap made explicit, the four value-level operations
return the same output under any two heaps, and `swapPersonAttributes`
invoked in any two heaps on references holding the same record value
succeeds in both and returns references to records with identical field
values. -/
theorem operations_deterministic (w w' : Heap) (a b : Int) (arr : List Int)
    (s : String) (r r' : Nat) (p : Person)
    (hp : w.objs[r]? = some p) (hp' : w'.objs[r']? = some p) :
    (calculateSumCall w a b).1 = (calculateSumCall w' a b).1 ∧
    (calculateDifferenceCall w a b).1 = (calculateDifferenceCall w' a b).1 ∧
    (CalculateArrySumCall w arr).1 = (CalculateArrySumCall w' arr).1 ∧
    (ReversesStringCall w s).1 = (ReversesStringCall w' s).1 ∧
    Option.bind (swapPersonAttributesJNI w r) (fun x => x.1.objs[x.2]?) =
      some (swapPersonAttributes p) ∧
    Option.bind (swapPersonAttributesJNI w' r') (fun x => x.1.objs[x.2]?) =
      some (swapPersonAttributes p) := by
  have hswap : ∀ (v : Heap) (i : Nat), v.objs[i]? = some p →
      Option.bind (swapPersonAttributesJNI v i) (fun x => x.1.objs[x.2]?) =
        some (swapPersonAttributes p) := by
    intro v i hv
    unfold swapPersonAttributesJNI
    rw [hv]
    unfold newObject
    simp only [Option.bind_some]
    exact getElem?_append_singleton_length v.objs _
  exact ⟨rfl, rfl, rfl, rfl, hswap w r hp, hswap w' r' hp'⟩

/-- Witness for C7: both calls made in a one-object heap. -/
theorem operations_deterministic_witness :
    (calculateSumCall (Heap.mk [Person.mk "Alice" 30]) 3 5).1 =
      (calculateSumCall (Heap.mk [Person.mk "Alice" 30]) 3 5).1 ∧
    (calculateDifferenceCall (Heap.mk [Person.mk "Alice" 30]) 3 5).1 =
      (calculateDifferenceCall (Heap.mk [Person.mk "Alice" 30]) 3 5).1 ∧
    (CalculateArrySumCall (Heap.mk [Person.mk "Alice" 30]) [1, 2]).1 =
      (CalculateArrySumCall (Heap.mk [Person.mk "Alice" 30]) [1, 2]).1 ∧
    (ReversesStringCall (Heap.mk [Person.mk "Alice" 30]) "hi").1 =
      (ReversesStringCall (Heap.mk [Person.mk "Alice" 30]) "hi").1 ∧
    Option.bind (swapPersonAttributesJNI (Heap.mk [Person.mk "Alice" 30]) 0)
        (fun x => x.1.objs[x.2]?) = some (swapPersonAttributes (Person.mk "Alice" 30)) ∧
    Option.bind (swapPersonAttributesJNI (Heap.mk [Person.mk "Alice" 30]) 0)
        (fun x => x.1.objs[x.2]?) = some (swapPersonAttributes (Person.mk "Alice" 30)) :=
  operations_deterministic (Heap.mk [Person.mk "Alice" 30])
    (Heap.mk [Person.mk "Alice" 30]) 3 5 [1, 2] "hi" 0 0 (Person.mk "Alice" 30)
    (by decide) (by decide)
